import Mathlib

/-!
Shallow embedding of the URL-shortener service, translated from
`src/short-url-api/routes/shortUrl.js` (routes `POST /shorten`,
`GET /shorten/:alias`, `GET /analytics/:alias`, `GET /analytics/topic/:topic`)
and the schema in `src/sql/sqlurl.sql`.

The MySQL storage layer is treated as an external collaborator: the `urls`
table is a `List UrlRecord`, the raw `url_analytics` table is a
`List AnalyticsEvent`, and the pre-grouped rows returned by the analytics
`GROUP BY` queries are consumed as `EventTuple` values carrying the
group-level representative `ip_address` that the route handlers read off
each row.  JavaScript objects used as keyed accumulators (`clicksByDate`,
`osTypeMap`, `deviceTypeMap`, `urlsAnalytics`) preserve insertion order for
non-index string keys, so they are modelled as association lists updated
in place; a JS `Set` is modelled as a duplicate-free list in insertion
order.  A thrown `TypeError` (e.g. `null.toLowerCase()`) aborts the whole
request and is modelled as `Except.error .typeError`.
-/

namespace UrlShortner

/-- Failure outcomes of the service operations: HTTP 400 for a missing
`longUrl`, HTTP 400 for a duplicate custom alias, HTTP 404, and an uncaught
JS `TypeError` crash. -/
inductive ApiError where
  | validationError
  | aliasConflict
  | notFound
  | typeError
deriving Repr, DecidableEq

deriving instance DecidableEq for Except

/-- A row of the `urls` table (`sqlurl.sql`): `custom_alias` and `topic`
are nullable columns. -/
structure UrlRecord where
  long_url : String
  short_url : String
  custom_alias : Option String
  topic : Option String
deriving Repr, DecidableEq

/-- A raw row of the `url_analytics` table, written once per redirect.
`user_agent` is a nullable TEXT column: the `user-agent` request header may
be absent. -/
structure AnalyticsEvent where
  alias_ : String
  user_agent : Option String
  ip_address : String
  geolocation : String
deriving Repr, DecidableEq

/-- A pre-grouped analytics row as consumed by the aggregation routes:
`SELECT alias, DATE(timestamp) AS click_date, user_agent, COUNT(*) AS
total_clicks, COUNT(DISTINCT ip_address) AS unique_users ... GROUP BY ...`,
together with the group-level representative `ip_address` field the route
code reads from each row (one IP per tuple). -/
structure EventTuple where
  alias_ : String
  click_date : String
  user_agent : Option String
  ip_address : String
  total_clicks : Nat
deriving Repr, DecidableEq

/-- An entry of the `clicksByDate` response array: `{ date, clickCount }`. -/
structure DateCount where
  date : String
  clickCount : Nat
deriving Repr, DecidableEq

/-- An entry of the `osType` response array:
`{ osName, uniqueClicks, uniqueUsers }`. -/
structure OsStat where
  osName : String
  uniqueClicks : Nat
  uniqueUsers : Nat
deriving Repr, DecidableEq

/-- An entry of the `deviceType` response array:
`{ deviceName, uniqueClicks, uniqueUsers }`. -/
structure DeviceStat where
  deviceName : String
  uniqueClicks : Nat
  uniqueUsers : Nat
deriving Repr, DecidableEq

/-- The `GET /analytics/:alias` response body. -/
structure AggregateReport where
  totalClicks : Nat
  uniqueUsers : Nat
  clicksByDate : List DateCount
  osType : List OsStat
  deviceType : List DeviceStat
deriving Repr, DecidableEq

/-- An entry of the topic report's `urls` array:
`{ shortUrl, totalClicks, uniqueUsers }`. -/
structure UrlEntry where
  shortUrl : String
  totalClicks : Nat
  uniqueUsers : Nat
deriving Repr, DecidableEq

/-- The `GET /analytics/topic/:topic` response body. -/
structure TopicReport where
  totalClicks : Nat
  uniqueUsers : Nat
  clicksByDate : List DateCount
  urls : List UrlEntry
deriving Repr, DecidableEq

/-- `leadsWith p s`: the character list `p` occurs at the start of `s`. -/
def leadsWith : List Char → List Char → Bool
  | [], _ => true
  | _ :: _, [] => false
  | p :: ps, c :: cs => p == c && leadsWith ps cs

/-- `hasSub p s`: the character list `p` occurs contiguously somewhere in
`s` (the semantics of JS `String.prototype.includes`). -/
def hasSub (p : List Char) : List Char → Bool
  | [] => leadsWith p []
  | c :: cs => leadsWith p (c :: cs) || hasSub p cs

/-- `includes s pat`: JS `s.includes(pat)` on a string already held as a
character list. -/
def includes (s : List Char) (pat : String) : Bool :=
  hasSub pat.toList s

/-- JS `s.toLowerCase()` restricted to per-character lowering, as a
character list. -/
def lowerChars (s : String) : List Char :=
  s.toList.map Char.toLower

/-- Lexicographic `≤` on character lists by code point: JS string
comparison `a <= b` as used in `clickDate >= sevenDaysAgo`. -/
def lexLe : List Char → List Char → Bool
  | [], _ => true
  | _ :: _, [] => false
  | c :: cs, d :: ds => c.toNat < d.toNat || (c == d && lexLe cs ds)

/-- OS classification of a user-agent string (`shortUrl.js` lines 155-163):
lower-case the agent, test substrings in the fixed order windows, mac,
linux, android, ios-or-iphone; first match wins, default `"Other"`. -/
def classifyOS (ua : String) : String :=
  let userAgent := lowerChars ua
  if includes userAgent "windows" then "Windows"
  else if includes userAgent "mac" then "macOS"
  else if includes userAgent "linux" then "Linux"
  else if includes userAgent "android" then "Android"
  else if includes userAgent "ios" || includes userAgent "iphone" then "iOS"
  else "Other"

/-- Device classification (`shortUrl.js` lines 178-184): `"mobile"` iff the
lower-cased agent contains `"mobile"`, `"android"` or `"iphone"`, else
`"desktop"`. -/
def classifyDevice (ua : String) : String :=
  let userAgent := lowerChars ua
  if includes userAgent "mobile" || includes userAgent "android" || includes userAgent "iphone" then
    "mobile"
  else "desktop"

/-- JS `Set.prototype.add`: append the element unless already present
(insertion order preserved). -/
def addIp (s : List String) (ip : String) : List String :=
  if ip ∈ s then s else s ++ [ip]

/-- `clicksByDate[d] = (clicksByDate[d] || 0) + c` on an insertion-ordered
keyed object. -/
def upsertDate : List (String × Nat) → String → Nat → List (String × Nat)
  | [], d, c => [(d, c)]
  | (k, v) :: rest, d, c =>
    if k = d then (k, v + c) :: rest
    else (k, v) :: upsertDate rest d c

/-- A value of `osTypeMap` / `deviceTypeMap` / `urlsAnalytics`: bucket key,
accumulated click count, and the JS `Set` of group-level IPs. -/
structure Bucket where
  name : String
  uniqueClicks : Nat
  uniqueUsers : List String
deriving Repr, DecidableEq

/-- One `forEach` step on a keyed bucket map: create the bucket on first
use, then add `c` clicks and the IP to the keyed bucket. -/
def upsertBucket : List Bucket → String → String → Nat → List Bucket
  | [], k, ip, c => [⟨k, c, [ip]⟩]
  | b :: rest, k, ip, c =>
    if b.name = k then
      { b with uniqueClicks := b.uniqueClicks + c,
               uniqueUsers := addIp b.uniqueUsers ip } :: rest
    else b :: upsertBucket rest k ip c

/-- One step of the `osTypeMap`/`deviceTypeMap` `forEach`: reading
`record.user_agent.toLowerCase()` on a NULL agent throws a `TypeError`;
otherwise classify and accumulate. -/
def bucketStep (classify : String → String) (m : List Bucket) (t : EventTuple) :
    Except ApiError (List Bucket) :=
  match t.user_agent with
  | none => .error .typeError
  | some ua => .ok (upsertBucket m (classify ua) t.ip_address t.total_clicks)

/-- The whole `forEach` building a bucket map over the grouped rows. -/
def buildBuckets (classify : String → String) (rows : List EventTuple) :
    Except ApiError (List Bucket) :=
  rows.foldlM (bucketStep classify) []

/-- The `WHERE short_url = ? OR custom_alias = ?` row predicate shared by
the resolver and the analytics alias check (`custom_alias = x` is false on
a NULL column). -/
def urlMatches (a : String) (u : UrlRecord) : Bool :=
  u.short_url == a || u.custom_alias == some a

/-- `GET /analytics/:alias` (`shortUrl.js` lines 98-213).  `sevenDaysAgo`
is the ISO `YYYY-MM-DD` rendering of `moment().subtract(7, 'days')`,
passed in as the computation-date parameter. -/
def getAliasReport (urls : List UrlRecord) (tuples : List EventTuple)
    (a : String) (sevenDaysAgo : String) : Except ApiError AggregateReport :=
  if (urls.filter (urlMatches a)).isEmpty then
    .error .notFound
  else
    let analyticsResults := tuples.filter (fun t => t.alias_ == a)
    let totalClicks := analyticsResults.foldl (fun s t => s + t.total_clicks) 0
    let uniqueUsers := (analyticsResults.foldl (fun s t => addIp s t.ip_address) []).length
    let clicksByDate := analyticsResults.foldl (fun m t =>
        if lexLe sevenDaysAgo.toList t.click_date.toList then
          upsertDate m t.click_date t.total_clicks
        else m) []
    match buildBuckets classifyOS analyticsResults,
          buildBuckets classifyDevice analyticsResults with
    | .ok osB, .ok devB =>
        .ok { totalClicks := totalClicks
              uniqueUsers := uniqueUsers
              clicksByDate := clicksByDate.map (fun p => ⟨p.1, p.2⟩)
              osType := osB.map (fun b => ⟨b.name, b.uniqueClicks, b.uniqueUsers.length⟩)
              deviceType := devB.map (fun b => ⟨b.name, b.uniqueClicks, b.uniqueUsers.length⟩) }
    | .error e, _ => .error e
    | _, .error e => .error e

/-- JS truthiness of a string-or-undefined value: `undefined`, `null` and
`""` are falsy. -/
def truthy : Option String → Bool
  | none => false
  | some s => s ≠ ""

/-- `POST /shorten` (`shortUrl.js` lines 18-56).  `generated` stands for
the external `shortid.generate()` collaborator's output.  Returns the
created row together with the updated `urls` table.  The alias pre-check
runs `custom_alias = ?` with the raw request value: when `customAlias` is
absent the placeholder becomes SQL NULL and matches nothing. -/
def create (urls : List UrlRecord) (longUrl customAlias topic : Option String)
    (generated : String) : Except ApiError (UrlRecord × List UrlRecord) :=
  if ¬ truthy longUrl then .error .validationError
  else
    let shortUrl := if truthy customAlias then customAlias.getD "" else generated
    let conflicts : List UrlRecord := match customAlias with
      | none => []
      | some c => urls.filter (fun u => u.custom_alias == some c)
    if conflicts.length > 0 then .error .aliasConflict
    else
      let newUrl : UrlRecord :=
        { long_url := longUrl.getD ""
          short_url := shortUrl
          custom_alias := if truthy customAlias then customAlias else none
          topic := if truthy topic then topic else none }
      .ok (newUrl, urls ++ [newUrl])

/-- `GET /shorten/:alias` (`shortUrl.js` lines 59-95).  `ip` is
`req.ip || req.connection.remoteAddress` (absent when neither is set),
`geo` the geolocation collaborator's result, and `insertFails` whether the
analytics INSERT reports a storage error; a failed insert is only logged.
Returns the redirect target and the updated `url_analytics` table. -/
def redirectShortUrl (urls : List UrlRecord) (events : List AnalyticsEvent)
    (a : String) (userAgent : Option String) (ip : Option String)
    (geo : Option (String × String × String)) (insertFails : Bool) :
    Except ApiError (String × List AnalyticsEvent) :=
  match urls.find? (urlMatches a) with
  | none => .error .notFound
  | some u =>
    let ipAddress := ip.getD "Unknown"
    let g := geo.getD ("Unknown", "Unknown", "Unknown")
    let geolocation := g.1 ++ ", " ++ g.2.1 ++ ", " ++ g.2.2
    let newEvents :=
      if insertFails then events
      else events ++ [⟨a, userAgent, ipAddress, geolocation⟩]
    .ok (u.long_url, newEvents)

/-- `GET /analytics/topic/:topic` (`shortUrl.js` lines 216-300).  The
grouped query is restricted to `alias IN (short_url values of the topic)`;
its rows have no 7-day filter and the `urls` array is built from the keys
of the `urlsAnalytics` accumulator, looking each alias back up in the
topic's URL rows (an absent row would crash with a `TypeError`). -/
def getTopicReport (urls : List UrlRecord) (tuples : List EventTuple)
    (topic : String) : Except ApiError TopicReport :=
  let urlsResults := urls.filter (fun u => u.topic == some topic)
  if urlsResults.isEmpty then .error .notFound
  else
    let aliases := urlsResults.map (fun u => u.short_url)
    let analyticsResults := tuples.filter (fun t => t.alias_ ∈ aliases)
    let totalClicks := analyticsResults.foldl (fun s t => s + t.total_clicks) 0
    let uniqueUsers := (analyticsResults.foldl (fun s t => addIp s t.ip_address) []).length
    let clicksByDate := analyticsResults.foldl (fun m t =>
        upsertDate m t.click_date t.total_clicks) []
    let urlsAnalytics := analyticsResults.foldl (fun m t =>
        upsertBucket m t.alias_ t.ip_address t.total_clicks) []
    match urlsAnalytics.mapM (fun b =>
        match urlsResults.find? (fun u => u.short_url == b.name) with
        | some u => Except.ok
            ({ shortUrl := u.short_url
               totalClicks := b.uniqueClicks
               uniqueUsers := b.uniqueUsers.length } : UrlEntry)
        | none => Except.error ApiError.typeError) with
    | .ok entries =>
        .ok { totalClicks := totalClicks
              uniqueUsers := uniqueUsers
              clicksByDate := clicksByDate.map (fun p => ⟨p.1, p.2⟩)
              urls := entries }
    | .error e => .error e

/-! ### Specification-side helper functions

Closed forms used in the theorem statements: per-key row selection, click
sums, distinct-IP collection, and the canonical accumulator contents. -/

/-- Sum of the `total_clicks` column over a list of grouped rows. -/
def clicksOf (rows : List EventTuple) : Nat :=
  (rows.map (fun t => t.total_clicks)).sum

/-- The `ip_address` column of a list of grouped rows, one per tuple. -/
def ipsOf (rows : List EventTuple) : List String :=
  rows.map (fun t => t.ip_address)

/-- Insertion-order deduplication: the contents of a JS `Set` built by
adding the given elements in order. -/
def ipSet (ips : List String) : List String :=
  ips.foldl addIp []

/-- The pure bucket accumulation with key function `kf` (the `forEach`
over grouped rows once every user agent is known to be non-NULL). -/
def bucketsBy (kf : EventTuple → String) (rows : List EventTuple) : List Bucket :=
  rows.foldl (fun m t => upsertBucket m (kf t) t.ip_address t.total_clicks) []

/-- OS bucket key of a tuple whose agent is known non-NULL. -/
def osKey (t : EventTuple) : String :=
  classifyOS (t.user_agent.getD "")

/-- Device bucket key of a tuple whose agent is known non-NULL. -/
def devKey (t : EventTuple) : String :=
  classifyDevice (t.user_agent.getD "")

/-- The rows surviving the `clickDate >= sevenDaysAgo` comparison. -/
def keptRows (cutoff : String) (rows : List EventTuple) : List EventTuple :=
  rows.filter (fun t => lexLe cutoff.toList t.click_date.toList)

/-- The pure date-map accumulation over grouped rows. -/
def dateMapOf (rows : List EventTuple) : List (String × Nat) :=
  rows.foldl (fun m t => upsertDate m t.click_date t.total_clicks) []

/-- Invariant tying a bucket accumulator to the processed prefix `p`:
keys are distinct, each bucket carries the click sum and the
insertion-order IP set of its rows, and the keys are exactly the keys of
`p`. -/
def BucketInv (kf : EventTuple → String) (p : List EventTuple) (m : List Bucket) : Prop :=
  (m.map (fun b => b.name)).Nodup ∧
  (∀ b ∈ m, b.uniqueClicks = clicksOf (p.filter (fun t => kf t == b.name)) ∧
            b.uniqueUsers = ipSet (ipsOf (p.filter (fun t => kf t == b.name)))) ∧
  (∀ k, (∃ b ∈ m, b.name = k) ↔ ∃ t ∈ p, kf t = k)

/-- Invariant tying the `clicksByDate` accumulator to the processed
prefix `p`. -/
def DateInv (p : List EventTuple) (m : List (String × Nat)) : Prop :=
  (m.map Prod.fst).Nodup ∧
  (∀ q ∈ m, q.2 = clicksOf (p.filter (fun t => t.click_date == q.1))) ∧
  (∀ d, (∃ q ∈ m, q.1 = d) ↔ ∃ t ∈ p, t.click_date = d)

/-- The canonical value of the alias report over already-filtered rows,
all of whose user agents are non-NULL. -/
def reportFor (rows : List EventTuple) (cutoff : String) : AggregateReport :=
  { totalClicks := clicksOf rows
    uniqueUsers := (ipSet (ipsOf rows)).length
    clicksByDate := (dateMapOf (keptRows cutoff rows)).map (fun p => ⟨p.1, p.2⟩)
    osType := (bucketsBy osKey rows).map
      (fun b => ⟨b.name, b.uniqueClicks, b.uniqueUsers.length⟩)
    deviceType := (bucketsBy devKey rows).map
      (fun b => ⟨b.name, b.uniqueClicks, b.uniqueUsers.length⟩) }

/-- The `urls` rows of a topic (`SELECT * FROM urls WHERE topic = ?`). -/
def topicUrls (urls : List UrlRecord) (topic : String) : List UrlRecord :=
  urls.filter (fun u => u.topic == some topic)

/-- The grouped rows reaching the topic aggregation:
`WHERE alias IN (short_url values of the topic's rows)`. -/
def topicRows (urls : List UrlRecord) (tuples : List EventTuple) (topic : String) :
    List EventTuple :=
  tuples.filter (fun t => t.alias_ ∈ (topicUrls urls topic).map (fun u => u.short_url))

/-- The canonical value of the topic report. -/
def topicReportFor (urls : List UrlRecord) (tuples : List EventTuple)
    (topic : String) : TopicReport :=
  { totalClicks := clicksOf (topicRows urls tuples topic)
    uniqueUsers := (ipSet (ipsOf (topicRows urls tuples topic))).length
    clicksByDate := (dateMapOf (topicRows urls tuples topic)).map (fun p => ⟨p.1, p.2⟩)
    urls := (bucketsBy (fun t => t.alias_) (topicRows urls tuples topic)).map
      (fun b => ⟨b.name, b.uniqueClicks, b.uniqueUsers.length⟩) }

/-! ### Concrete fixtures (used to instantiate the universally quantified
theorems on closed inputs) -/

/-- A registered URL: token `abc`, no custom alias, topic `news`. -/
def demoUrl : UrlRecord :=
  { long_url := "http://long.com", short_url := "abc",
    custom_alias := none, topic := some "news" }

/-- A grouped row: 3 Windows clicks from `1.1.1.1` on 2024-01-01. -/
def demoWin : EventTuple :=
  { alias_ := "abc", click_date := "2024-01-01",
    user_agent := some "Mozilla Windows", ip_address := "1.1.1.1", total_clicks := 3 }

/-- A grouped row: 2 iPhone clicks from `2.2.2.2` on 2024-01-01. -/
def demoIos : EventTuple :=
  { alias_ := "abc", click_date := "2024-01-01",
    user_agent := some "Mozilla iPhone", ip_address := "2.2.2.2", total_clicks := 2 }

/-- A grouped row whose `user_agent` is NULL (header missing at record time). -/
def demoNull : EventTuple :=
  { alias_ := "abc", click_date := "2024-01-01",
    user_agent := none, ip_address := "3.3.3.3", total_clicks := 1 }

/-- The alias report of `[demoWin, demoIos]` (spec section 8 scenario). -/
def demoReport : AggregateReport :=
  { totalClicks := 5, uniqueUsers := 2,
    clicksByDate := [⟨"2024-01-01", 5⟩],
    osType := [⟨"Windows", 3, 1⟩, ⟨"iOS", 2, 1⟩],
    deviceType := [⟨"desktop", 3, 1⟩, ⟨"mobile", 2, 1⟩] }

/-! ### Lemmas about the JS `Set` model -/

theorem addIp_toFinset (s : List String) (ip : String) :
    (addIp s ip).toFinset = insert ip s.toFinset := by
  unfold addIp
  split
  · next h => simp [List.mem_toFinset.2 h]
  · next h =>
    simp only [List.toFinset_append, List.toFinset_cons, List.toFinset_nil]
    rw [Finset.union_comm]
    simp [Finset.insert_eq]

theorem addIp_nodup {s : List String} (h : s.Nodup) (ip : String) :
    (addIp s ip).Nodup := by
  unfold addIp
  split
  · exact h
  · next hns =>
    rw [List.nodup_append]
    refine ⟨h, List.nodup_singleton ip, ?_⟩
    intro a ha hb
    rw [List.mem_singleton] at hb
    subst hb
    exact hns ha

theorem foldl_addIp_toFinset (ips : List String) :
    ∀ acc : List String, (ips.foldl addIp acc).toFinset = acc.toFinset ∪ ips.toFinset := by
  induction ips with
  | nil => intro acc; simp
  | cons i is ih =>
    intro acc
    simp only [List.foldl_cons, ih, addIp_toFinset, List.toFinset_cons]
    rw [Finset.insert_union, Finset.union_insert]

theorem foldl_addIp_nodup (ips : List String) :
    ∀ acc : List String, acc.Nodup → (ips.foldl addIp acc).Nodup := by
  induction ips with
  | nil => intro acc h; exact h
  | cons i is ih =>
    intro acc h
    exact ih (addIp acc i) (addIp_nodup h i)

theorem ipSet_toFinset (ips : List String) : (ipSet ips).toFinset = ips.toFinset := by
  unfold ipSet
  rw [foldl_addIp_toFinset]
  simp

theorem ipSet_nodup (ips : List String) : (ipSet ips).Nodup :=
  foldl_addIp_nodup ips [] List.nodup_nil

theorem ipSet_length (ips : List String) : (ipSet ips).length = ips.toFinset.card := by
  rw [← ipSet_toFinset, List.toFinset_card_of_nodup (ipSet_nodup ips)]

theorem ipSet_append (ips : List String) (ip : String) :
    ipSet (ips ++ [ip]) = addIp (ipSet ips) ip := by
  unfold ipSet
  rw [List.foldl_append]
  rfl

/-! ### Lemmas about the fold computing `totalClicks` -/

theorem foldl_add_eq_sum (f : EventTuple → Nat) (rows : List EventTuple) :
    ∀ n : Nat, rows.foldl (fun s t => s + f t) n = n + (rows.map f).sum := by
  induction rows with
  | nil => intro n; simp
  | cons r rs ih =>
    intro n
    simp only [List.foldl_cons, List.map_cons, List.sum_cons, ih]
    omega

theorem foldl_addIp_map (rows : List EventTuple) :
    rows.foldl (fun s t => addIp s t.ip_address) [] = ipSet (ipsOf rows) := by
  unfold ipSet ipsOf
  rw [List.foldl_map]

/-! ### Lemmas about `upsertBucket` -/

theorem upsertBucket_map_name (m : List Bucket) (k ip : String) (c : Nat) :
    (upsertBucket m k ip c).map (fun b => b.name) =
      if k ∈ m.map (fun b => b.name) then m.map (fun b => b.name)
      else m.map (fun b => b.name) ++ [k] := by
  induction m with
  | nil => simp [upsertBucket]
  | cons b rest ih =>
    by_cases hbk : b.name = k
    · simp [upsertBucket, hbk]
    · have hco : (k ∈ b.name :: rest.map (fun b => b.name)) ↔
          k ∈ rest.map (fun b => b.name) := by
        simp only [List.mem_cons]
        constructor
        · rintro (h | h)
          · exact absurd h.symm hbk
          · exact h
        · exact Or.inr
      simp only [upsertBucket, if_neg hbk, List.map_cons, ih, hco]
      by_cases hk : k ∈ rest.map (fun b => b.name)
      · rw [if_pos hk, if_pos hk]
      · rw [if_neg hk, if_neg hk, List.cons_append]

theorem upsertBucket_nodup_name {m : List Bucket} (k ip : String) (c : Nat)
    (h : (m.map (fun b => b.name)).Nodup) :
    ((upsertBucket m k ip c).map (fun b => b.name)).Nodup := by
  rw [upsertBucket_map_name]
  split
  · exact h
  · next hk =>
    rw [List.nodup_append]
    refine ⟨h, List.nodup_singleton k, ?_⟩
    intro a ha hb
    rw [List.mem_singleton] at hb
    subst hb
    exact hk ha

theorem mem_upsertBucket {m : List Bucket} {k ip : String} {c : Nat} {b : Bucket}
    (hn : (m.map (fun b => b.name)).Nodup) (hb : b ∈ upsertBucket m k ip c) :
    (b ∈ m ∧ b.name ≠ k) ∨
    (∃ b0 ∈ m, b0.name = k ∧
      b = ⟨k, b0.uniqueClicks + c, addIp b0.uniqueUsers ip⟩) ∨
    ((∀ b0 ∈ m, b0.name ≠ k) ∧ b = ⟨k, c, [ip]⟩) := by
  induction m with
  | nil =>
    simp only [upsertBucket, List.mem_singleton] at hb
    exact Or.inr (Or.inr ⟨by simp, hb⟩)
  | cons b1 rest ih =>
    simp only [List.map_cons, List.nodup_cons] at hn
    by_cases h1k : b1.name = k
    · simp only [upsertBucket, if_pos h1k, List.mem_cons] at hb
      rcases hb with hb | hb
      · exact Or.inr (Or.inl ⟨b1, List.mem_cons_self b1 rest, h1k, by
          rw [hb]; cases b1; simp_all⟩)
      · refine Or.inl ⟨List.mem_cons_of_mem b1 hb, ?_⟩
        intro hbk
        apply hn.1
        rw [h1k, ← hbk]
        exact List.mem_map_of_mem (fun b => b.name) hb
    · simp only [upsertBucket, if_neg h1k, List.mem_cons] at hb
      rcases hb with hb | hb
      · exact Or.inl ⟨by simp [hb], by rw [hb]; exact h1k⟩
      · rcases ih hn.2 hb with h | h | h
        · exact Or.inl ⟨List.mem_cons_of_mem b1 h.1, h.2⟩
        · obtain ⟨b0, hb0, hname, heq⟩ := h
          exact Or.inr (Or.inl ⟨b0, List.mem_cons_of_mem b1 hb0, hname, heq⟩)
        · refine Or.inr (Or.inr ⟨?_, h.2⟩)
          intro b0 hb0
          rcases List.mem_cons.1 hb0 with rfl | hb0
          · exact h1k
          · exact h.1 b0 hb0

theorem upsertBucket_sum (m : List Bucket) (k ip : String) (c : Nat) :
    ((upsertBucket m k ip c).map (fun b => b.uniqueClicks)).sum =
      (m.map (fun b => b.uniqueClicks)).sum + c := by
  induction m with
  | nil => simp [upsertBucket]
  | cons b rest ih =>
    by_cases hbk : b.name = k
    · simp only [upsertBucket, if_pos hbk, List.map_cons, List.sum_cons]
      omega
    · simp only [upsertBucket, if_neg hbk, List.map_cons, List.sum_cons, ih]
      omega

/-! ### The bucket invariant is established by the `forEach` fold -/

theorem mem_name_iff (m : List Bucket) (k : String) :
    (∃ b ∈ m, b.name = k) ↔ k ∈ m.map (fun b => b.name) := by
  simp [List.mem_map]

theorem clicksOf_append_single (rows : List EventTuple) (t : EventTuple) :
    clicksOf (rows ++ [t]) = clicksOf rows + t.total_clicks := by
  simp [clicksOf]

theorem filter_append_single (p : List EventTuple) (t : EventTuple)
    (pr : EventTuple → Bool) :
    (p ++ [t]).filter pr = p.filter pr ++ (if pr t then [t] else []) := by
  rw [List.filter_append]
  congr 1
  by_cases h : pr t <;> simp [h]

theorem BucketInv_nil (kf : EventTuple → String) : BucketInv kf [] [] := by
  refine ⟨List.nodup_nil, ?_, ?_⟩
  · intro b hb; cases hb
  · intro k
    simp

theorem BucketInv_step {kf : EventTuple → String} {p : List EventTuple}
    {m : List Bucket} (t : EventTuple) (h : BucketInv kf p m) :
    BucketInv kf (p ++ [t]) (upsertBucket m (kf t) t.ip_address t.total_clicks) := by
  obtain ⟨hnd, hval, hmem⟩ := h
  refine ⟨upsertBucket_nodup_name _ _ _ hnd, ?_, ?_⟩
  · intro b hb
    rcases mem_upsertBucket hnd hb with ⟨hbm, hbk⟩ | ⟨b0, hb0, hb0k, rfl⟩ | ⟨hnone, rfl⟩
    · have hfil : (p ++ [t]).filter (fun t' => kf t' == b.name) =
          p.filter (fun t' => kf t' == b.name) := by
        rw [filter_append_single]
        have : (kf t == b.name) = false := beq_eq_false_iff_ne.2 (fun he => hbk he.symm)
        simp [this]
      rw [hfil]
      exact hval b hbm
    · have hfil : (p ++ [t]).filter (fun t' => kf t' == (kf t)) =
          p.filter (fun t' => kf t' == (kf t)) ++ [t] := by
        rw [filter_append_single]
        simp
      obtain ⟨hc, hu⟩ := hval b0 hb0
      constructor
      · show b0.uniqueClicks + t.total_clicks =
          clicksOf ((p ++ [t]).filter (fun t' => kf t' == kf t))
        rw [hfil, clicksOf_append_single, hc, hb0k]
      · show addIp b0.uniqueUsers t.ip_address =
          ipSet (ipsOf ((p ++ [t]).filter (fun t' => kf t' == kf t)))
        rw [hfil, hu, hb0k]
        unfold ipsOf
        rw [List.map_append, List.map_singleton, ipSet_append]
    · have hpnil : p.filter (fun t' => kf t' == (kf t)) = [] := by
        rw [List.filter_eq_nil_iff]
        intro t' ht' hbeq
        have : ∃ b ∈ m, b.name = kf t := (hmem (kf t)).2 ⟨t', ht', beq_iff_eq.1 hbeq⟩
        obtain ⟨b0, hb0, hb0k⟩ := this
        exact hnone b0 hb0 hb0k
      have hfil : (p ++ [t]).filter (fun t' => kf t' == (kf t)) = [t] := by
        rw [filter_append_single, hpnil]
        simp
      constructor
      · simp [hfil, clicksOf]
      · simp [hfil, ipsOf, ipSet, addIp]
  · intro k
    rw [mem_name_iff, upsertBucket_map_name]
    have hr : (∃ t' ∈ p ++ [t], kf t' = k) ↔ (∃ t' ∈ p, kf t' = k) ∨ kf t = k := by
      simp only [List.mem_append, List.mem_singleton]
      constructor
      · rintro ⟨t', ht' | rfl, hk⟩
        · exact Or.inl ⟨t', ht', hk⟩
        · exact Or.inr hk
      · rintro (⟨t', ht', hk⟩ | hk)
        · exact ⟨t', Or.inl ht', hk⟩
        · exact ⟨t, Or.inr rfl, hk⟩
    rw [hr]
    split
    · next hin =>
      rw [← mem_name_iff, hmem k]
      constructor
      · exact Or.inl
      · rintro (hk | rfl)
        · exact hk
        · rw [← hmem (kf t), mem_name_iff]
          exact hin
    · next hin =>
      rw [List.mem_append, List.mem_singleton, ← mem_name_iff, hmem k]
      constructor
      · rintro (hk | rfl)
        · exact Or.inl hk
        · exact Or.inr rfl
      · rintro (hk | rfl)
        · exact Or.inl hk
        · exact Or.inr rfl

theorem BucketInv_foldl (kf : EventTuple → String) (rows : List EventTuple) :
    ∀ (p : List EventTuple) (m : List Bucket), BucketInv kf p m →
      BucketInv kf (p ++ rows)
        (rows.foldl (fun m t => upsertBucket m (kf t) t.ip_address t.total_clicks) m) := by
  induction rows with
  | nil =>
    intro p m h
    simpa using h
  | cons r rest ih =>
    intro p m h
    have h1 := BucketInv_step r h
    have h2 := ih (p ++ [r]) _ h1
    simpa [List.append_assoc] using h2

theorem bucketsBy_inv (kf : EventTuple → String) (rows : List EventTuple) :
    BucketInv kf rows (bucketsBy kf rows) := by
  have h := BucketInv_foldl kf rows [] [] (BucketInv_nil kf)
  simpa [bucketsBy] using h

theorem bucketsBy_sum (kf : EventTuple → String) (rows : List EventTuple) :
    ((bucketsBy kf rows).map (fun b => b.uniqueClicks)).sum = clicksOf rows := by
  suffices h : ∀ m : List Bucket,
      ((rows.foldl (fun m t => upsertBucket m (kf t) t.ip_address t.total_clicks) m).map
        (fun b => b.uniqueClicks)).sum =
      (m.map (fun b => b.uniqueClicks)).sum + clicksOf rows by
    simpa [bucketsBy] using h []
  induction rows with
  | nil => intro m; simp [clicksOf]
  | cons r rest ih =>
    intro m
    simp only [List.foldl_cons, ih, upsertBucket_sum]
    simp [clicksOf]
    omega

/-! ### The `clicksByDate` accumulator -/

theorem upsertDate_map_fst (m : List (String × Nat)) (d : String) (c : Nat) :
    (upsertDate m d c).map Prod.fst =
      if d ∈ m.map Prod.fst then m.map Prod.fst else m.map Prod.fst ++ [d] := by
  induction m with
  | nil => simp [upsertDate]
  | cons q rest ih =>
    obtain ⟨k, v⟩ := q
    by_cases hkd : k = d
    · simp [upsertDate, hkd]
    · have hco : (d ∈ k :: rest.map Prod.fst) ↔ d ∈ rest.map Prod.fst := by
        simp only [List.mem_cons]
        constructor
        · rintro (h | h)
          · exact absurd h.symm hkd
          · exact h
        · exact Or.inr
      simp only [upsertDate, if_neg hkd, List.map_cons, ih, hco]
      by_cases hd : d ∈ rest.map Prod.fst
      · rw [if_pos hd, if_pos hd]
      · rw [if_neg hd, if_neg hd, List.cons_append]

theorem upsertDate_nodup_fst {m : List (String × Nat)} (d : String) (c : Nat)
    (h : (m.map Prod.fst).Nodup) : ((upsertDate m d c).map Prod.fst).Nodup := by
  rw [upsertDate_map_fst]
  split
  · exact h
  · next hd =>
    rw [List.nodup_append]
    refine ⟨h, List.nodup_singleton d, ?_⟩
    intro a ha hb
    rw [List.mem_singleton] at hb
    subst hb
    exact hd ha

theorem mem_upsertDate {m : List (String × Nat)} {d : String} {c : Nat}
    {q : String × Nat} (hn : (m.map Prod.fst).Nodup) (hq : q ∈ upsertDate m d c) :
    (q ∈ m ∧ q.1 ≠ d) ∨
    (∃ v, (d, v) ∈ m ∧ q = (d, v + c)) ∨
    ((∀ q0 ∈ m, q0.1 ≠ d) ∧ q = (d, c)) := by
  induction m with
  | nil =>
    simp only [upsertDate, List.mem_singleton] at hq
    exact Or.inr (Or.inr ⟨by simp, hq⟩)
  | cons q1 rest ih =>
    obtain ⟨k, v⟩ := q1
    simp only [List.map_cons, List.nodup_cons] at hn
    by_cases hkd : k = d
    · simp only [upsertDate, if_pos hkd, List.mem_cons] at hq
      rcases hq with hq | hq
      · subst hkd
        exact Or.inr (Or.inl ⟨v, List.mem_cons_self _ _, hq⟩)
      · refine Or.inl ⟨List.mem_cons_of_mem _ hq, ?_⟩
        intro hqd
        apply hn.1
        rw [hkd, ← hqd]
        exact List.mem_map_of_mem Prod.fst hq
    · simp only [upsertDate, if_neg hkd, List.mem_cons] at hq
      rcases hq with hq | hq
      · exact Or.inl ⟨by simp [hq], by rw [hq]; exact hkd⟩
      · rcases ih hn.2 hq with h | h | h
        · exact Or.inl ⟨List.mem_cons_of_mem _ h.1, h.2⟩
        · obtain ⟨v0, hv0, heq⟩ := h
          exact Or.inr (Or.inl ⟨v0, List.mem_cons_of_mem _ hv0, heq⟩)
        · refine Or.inr (Or.inr ⟨?_, h.2⟩)
          intro q0 hq0
          rcases List.mem_cons.1 hq0 with rfl | hq0
          · exact hkd
          · exact h.1 q0 hq0

theorem DateInv_nil : DateInv [] [] := by
  refine ⟨List.nodup_nil, ?_, ?_⟩
  · intro q hq; cases hq
  · intro d; simp

theorem mem_fst_iff (m : List (String × Nat)) (d : String) :
    (∃ q ∈ m, q.1 = d) ↔ d ∈ m.map Prod.fst := by
  simp [List.mem_map]

theorem DateInv_step {p : List EventTuple} {m : List (String × Nat)}
    (t : EventTuple) (h : DateInv p m) :
    DateInv (p ++ [t]) (upsertDate m t.click_date t.total_clicks) := by
  obtain ⟨hnd, hval, hmem⟩ := h
  refine ⟨upsertDate_nodup_fst _ _ hnd, ?_, ?_⟩
  · intro q hq
    rcases mem_upsertDate hnd hq with ⟨hqm, hqd⟩ | ⟨v, hv, rfl⟩ | ⟨hnone, rfl⟩
    · have hfil : (p ++ [t]).filter (fun t' => t'.click_date == q.1) =
          p.filter (fun t' => t'.click_date == q.1) := by
        rw [filter_append_single]
        have : (t.click_date == q.1) = false := beq_eq_false_iff_ne.2 (fun he => hqd he.symm)
        simp [this]
      rw [hfil]
      exact hval q hqm
    · have hfil : (p ++ [t]).filter (fun t' => t'.click_date == t.click_date) =
          p.filter (fun t' => t'.click_date == t.click_date) ++ [t] := by
        rw [filter_append_single]
        simp
      show v + t.total_clicks =
        clicksOf ((p ++ [t]).filter (fun t' => t'.click_date == t.click_date))
      rw [hfil, clicksOf_append_single]
      have := hval (t.click_date, v) hv
      simp only at this
      rw [this]
    · have hpnil : p.filter (fun t' => t'.click_date == t.click_date) = [] := by
        rw [List.filter_eq_nil_iff]
        intro t' ht' hbeq
        have : ∃ q ∈ m, q.1 = t.click_date :=
          (hmem t.click_date).2 ⟨t', ht', beq_iff_eq.1 hbeq⟩
        obtain ⟨q0, hq0, hq0d⟩ := this
        exact hnone q0 hq0 hq0d
      show t.total_clicks =
        clicksOf ((p ++ [t]).filter (fun t' => t'.click_date == t.click_date))
      rw [filter_append_single, hpnil]
      simp [clicksOf]
  · intro d
    rw [mem_fst_iff, upsertDate_map_fst]
    have hr : (∃ t' ∈ p ++ [t], t'.click_date = d) ↔
        (∃ t' ∈ p, t'.click_date = d) ∨ t.click_date = d := by
      simp only [List.mem_append, List.mem_singleton]
      constructor
      · rintro ⟨t', ht' | rfl, hk⟩
        · exact Or.inl ⟨t', ht', hk⟩
        · exact Or.inr hk
      · rintro (⟨t', ht', hk⟩ | hk)
        · exact ⟨t', Or.inl ht', hk⟩
        · exact ⟨t, Or.inr rfl, hk⟩
    rw [hr]
    split
    · next hin =>
      rw [← mem_fst_iff, hmem d]
      constructor
      · exact Or.inl
      · rintro (hk | rfl)
        · exact hk
        · rw [← hmem t.click_date, mem_fst_iff]
          exact hin
    · next hin =>
      rw [List.mem_append, List.mem_singleton, ← mem_fst_iff, hmem d]
      constructor
      · rintro (hk | rfl)
        · exact Or.inl hk
        · exact Or.inr rfl
      · rintro (hk | rfl)
        · exact Or.inl hk
        · exact Or.inr rfl

theorem DateInv_foldl (rows : List EventTuple) :
    ∀ (p : List EventTuple) (m : List (String × Nat)), DateInv p m →
      DateInv (p ++ rows)
        (rows.foldl (fun m t => upsertDate m t.click_date t.total_clicks) m) := by
  induction rows with
  | nil =>
    intro p m h
    simpa using h
  | cons r rest ih =>
    intro p m h
    have h1 := DateInv_step r h
    have h2 := ih (p ++ [r]) _ h1
    simpa [List.append_assoc] using h2

theorem dateMapOf_inv (rows : List EventTuple) : DateInv rows (dateMapOf rows) := by
  have h := DateInv_foldl rows [] [] DateInv_nil
  simpa [dateMapOf] using h

/-- The guarded fold of the alias route (`if clickDate >= sevenDaysAgo`)
equals the plain date fold over the filtered rows. -/
theorem foldl_guard_eq_filter (cutoff : String) (rows : List EventTuple) :
    ∀ m : List (String × Nat),
      rows.foldl (fun m t =>
        if lexLe cutoff.toList t.click_date.toList then
          upsertDate m t.click_date t.total_clicks
        else m) m =
      (keptRows cutoff rows).foldl
        (fun m t => upsertDate m t.click_date t.total_clicks) m := by
  induction rows with
  | nil => intro m; simp [keptRows]
  | cons r rest ih =>
    intro m
    by_cases hr : lexLe cutoff.toList r.click_date.toList = true
    · simp only [keptRows] at ih ⊢
      simp only [List.filter_cons, hr, if_true, List.foldl_cons, if_pos hr, ih]
    · have hr' : lexLe cutoff.toList r.click_date.toList = false := by
        revert hr
        cases lexLe cutoff.toList r.click_date.toList <;> simp
      simp only [keptRows] at ih ⊢
      simp only [List.filter_cons, hr', Bool.false_eq_true, if_false, List.foldl_cons,
        if_neg hr, ih]

/-! ### The `Except` layer of the bucket `forEach` -/

theorem foldlM_bucketStep_ok (cl : String → String) (rows : List EventTuple)
    (h : ∀ t ∈ rows, t.user_agent ≠ none) :
    ∀ m : List Bucket,
      rows.foldlM (bucketStep cl) m =
        .ok (rows.foldl (fun m t =>
          upsertBucket m (cl (t.user_agent.getD "")) t.ip_address t.total_clicks) m) := by
  induction rows with
  | nil => intro m; rfl
  | cons r rest ih =>
    intro m
    have hr := h r (List.mem_cons_self r rest)
    obtain ⟨ua, hua⟩ := Option.ne_none_iff_exists'.1 hr
    rw [List.foldlM_cons, List.foldl_cons]
    have hstep : bucketStep cl m r =
        .ok (upsertBucket m (cl (r.user_agent.getD "")) r.ip_address r.total_clicks) := by
      unfold bucketStep
      rw [hua]
      rfl
    rw [hstep]
    show rest.foldlM (bucketStep cl) _ = _
    exact ih (fun t ht => h t (List.mem_cons_of_mem r ht)) _

theorem buildBuckets_os_ok (rows : List EventTuple)
    (h : ∀ t ∈ rows, t.user_agent ≠ none) :
    buildBuckets classifyOS rows = .ok (bucketsBy osKey rows) :=
  foldlM_bucketStep_ok classifyOS rows h []

theorem buildBuckets_dev_ok (rows : List EventTuple)
    (h : ∀ t ∈ rows, t.user_agent ≠ none) :
    buildBuckets classifyDevice rows = .ok (bucketsBy devKey rows) :=
  foldlM_bucketStep_ok classifyDevice rows h []

theorem foldlM_bucketStep_error (cl : String → String) (rows : List EventTuple)
    (h : ∃ t ∈ rows, t.user_agent = none) :
    ∀ m : List Bucket, rows.foldlM (bucketStep cl) m = .error .typeError := by
  induction rows with
  | nil => obtain ⟨t, ht, _⟩ := h; cases ht
  | cons r rest ih =>
    intro m
    rw [List.foldlM_cons]
    by_cases hr : r.user_agent = none
    · have : bucketStep cl m r = .error .typeError := by
        unfold bucketStep
        rw [hr]
      rw [this]
      rfl
    · obtain ⟨ua, hua⟩ := Option.ne_none_iff_exists'.1 hr
      have hstep : bucketStep cl m r =
          .ok (upsertBucket m (cl ua) r.ip_address r.total_clicks) := by
        unfold bucketStep
        rw [hua]
      rw [hstep]
      obtain ⟨t, ht, htn⟩ := h
      rcases List.mem_cons.1 ht with rfl | ht
      · exact absurd htn hr
      · exact ih ⟨t, ht, htn⟩ _

theorem buildBuckets_error_of_none (cl : String → String) (rows : List EventTuple)
    (h : ∃ t ∈ rows, t.user_agent = none) :
    buildBuckets cl rows = .error .typeError :=
  foldlM_bucketStep_error cl rows h []

theorem buildBuckets_error_eq (cl : String → String) (rows : List EventTuple)
    (e : ApiError) (h : buildBuckets cl rows = .error e) : e = .typeError := by
  by_cases hall : ∀ t ∈ rows, t.user_agent ≠ none
  · unfold buildBuckets at h
    rw [foldlM_bucketStep_ok cl rows hall []] at h
    cases h
  · push_neg at hall
    obtain ⟨t, ht, htn⟩ := hall
    rw [buildBuckets_error_of_none cl rows ⟨t, ht, htn⟩] at h
    cases h
    rfl

/-! ### Case analysis of the alias report route -/

theorem getAliasReport_notFound_of (urls : List UrlRecord) (tuples : List EventTuple)
    (a cutoff : String) (h : urls.filter (urlMatches a) = []) :
    getAliasReport urls tuples a cutoff = .error .notFound := by
  unfold getAliasReport
  rw [h]
  rfl

theorem getAliasReport_eq_ok_of (urls : List UrlRecord) (tuples : List EventTuple)
    (a cutoff : String) (hne : urls.filter (urlMatches a) ≠ [])
    (hag : ∀ t ∈ tuples.filter (fun t => t.alias_ == a), t.user_agent ≠ none) :
    getAliasReport urls tuples a cutoff =
      .ok (reportFor (tuples.filter (fun t => t.alias_ == a)) cutoff) := by
  unfold getAliasReport
  have hemp : (urls.filter (urlMatches a)).isEmpty = false := by
    rw [List.isEmpty_eq_false]
    exact hne
  rw [hemp]
  simp only [Bool.false_eq_true, if_false]
  rw [buildBuckets_os_ok _ hag, buildBuckets_dev_ok _ hag]
  unfold reportFor
  rw [foldl_add_eq_sum, foldl_addIp_map, foldl_guard_eq_filter, Nat.zero_add]
  rfl

theorem getAliasReport_typeError_of (urls : List UrlRecord) (tuples : List EventTuple)
    (a cutoff : String) (hne : urls.filter (urlMatches a) ≠ [])
    (hnone : ∃ t ∈ tuples.filter (fun t => t.alias_ == a), t.user_agent = none) :
    getAliasReport urls tuples a cutoff = .error .typeError := by
  unfold getAliasReport
  have hemp : (urls.filter (urlMatches a)).isEmpty = false := by
    rw [List.isEmpty_eq_false]
    exact hne
  rw [hemp]
  simp only [Bool.false_eq_true, if_false]
  rw [buildBuckets_error_of_none _ _ hnone]
  rcases hdev : buildBuckets classifyDevice (tuples.filter (fun t => t.alias_ == a)) with e | devB
  · rfl
  · rfl

theorem getAliasReport_ok_elim {urls : List UrlRecord} {tuples : List EventTuple}
    {a cutoff : String} {r : AggregateReport}
    (h : getAliasReport urls tuples a cutoff = .ok r) :
    urls.filter (urlMatches a) ≠ [] ∧
    (∀ t ∈ tuples.filter (fun t => t.alias_ == a), t.user_agent ≠ none) ∧
    r = reportFor (tuples.filter (fun t => t.alias_ == a)) cutoff := by
  have hne : urls.filter (urlMatches a) ≠ [] := by
    intro hnil
    rw [getAliasReport_notFound_of urls tuples a cutoff hnil] at h
    cases h
  have hag : ∀ t ∈ tuples.filter (fun t => t.alias_ == a), t.user_agent ≠ none := by
    by_contra hc
    push_neg at hc
    obtain ⟨t, ht, htn⟩ := hc
    rw [getAliasReport_typeError_of urls tuples a cutoff hne ⟨t, ht, htn⟩] at h
    cases h
  refine ⟨hne, hag, ?_⟩
  rw [getAliasReport_eq_ok_of urls tuples a cutoff hne hag] at h
  cases h
  rfl

theorem getAliasReport_notFound_iff (urls : List UrlRecord) (tuples : List EventTuple)
    (a cutoff : String) :
    getAliasReport urls tuples a cutoff = .error .notFound ↔
      urls.filter (urlMatches a) = [] := by
  constructor
  · intro h
    by_contra hne
    by_cases hall : ∀ t ∈ tuples.filter (fun t => t.alias_ == a), t.user_agent ≠ none
    · rw [getAliasReport_eq_ok_of urls tuples a cutoff hne hall] at h
      cases h
    · push_neg at hall
      obtain ⟨t, ht, htn⟩ := hall
      rw [getAliasReport_typeError_of urls tuples a cutoff hne ⟨t, ht, htn⟩] at h
      cases h
  · exact getAliasReport_notFound_of urls tuples a cutoff

/-! ### Case analysis of the topic report route -/

theorem find?_shortUrl_mem {l : List UrlRecord} {k : String}
    (h : k ∈ l.map (fun u => u.short_url)) :
    ∃ u, l.find? (fun u => u.short_url == k) = some u ∧ u.short_url = k := by
  obtain ⟨u0, hu0, hk⟩ := List.mem_map.1 h
  have hs : (l.find? (fun u => u.short_url == k)).isSome := by
    rw [List.find?_isSome]
    exact ⟨u0, hu0, by simp [hk]⟩
  obtain ⟨u, hu⟩ := Option.isSome_iff_exists.1 hs
  refine ⟨u, hu, ?_⟩
  have := List.find?_some hu
  simpa using this

theorem mapM_entries_ok (res : List UrlRecord) (m : List Bucket)
    (h : ∀ b ∈ m, b.name ∈ res.map (fun u => u.short_url)) :
    (m.mapM (fun b =>
      match res.find? (fun u => u.short_url == b.name) with
      | some u => Except.ok
          ({ shortUrl := u.short_url
             totalClicks := b.uniqueClicks
             uniqueUsers := b.uniqueUsers.length } : UrlEntry)
      | none => Except.error ApiError.typeError)) =
    Except.ok (m.map (fun b =>
      ({ shortUrl := b.name
         totalClicks := b.uniqueClicks
         uniqueUsers := b.uniqueUsers.length } : UrlEntry))) := by
  induction m with
  | nil => rfl
  | cons b rest ih =>
    obtain ⟨u, hu, hus⟩ := find?_shortUrl_mem (h b (List.mem_cons_self b rest))
    have hrest := ih (fun b hb => h b (List.mem_cons_of_mem _ hb))
    rw [List.mapM_cons, hu, hrest]
    show Except.ok
        (({ shortUrl := u.short_url
            totalClicks := b.uniqueClicks
            uniqueUsers := b.uniqueUsers.length } : UrlEntry) ::
          rest.map (fun b =>
            ({ shortUrl := b.name
               totalClicks := b.uniqueClicks
               uniqueUsers := b.uniqueUsers.length } : UrlEntry))) = _
    rw [hus]
    rfl

theorem bucketsBy_alias_names {rows : List EventTuple} {aliases : List String}
    (hrows : ∀ t ∈ rows, t.alias_ ∈ aliases) :
    ∀ b ∈ bucketsBy (fun t => t.alias_) rows, b.name ∈ aliases := by
  intro b hb
  have hmem := (bucketsBy_inv (fun t => t.alias_) rows).2.2 b.name
  obtain ⟨t, ht, hta⟩ := hmem.1 ⟨b, hb, rfl⟩
  rw [← hta]
  exact hrows t ht

theorem getTopicReport_notFound_of (urls : List UrlRecord) (tuples : List EventTuple)
    (topic : String) (h : topicUrls urls topic = []) :
    getTopicReport urls tuples topic = .error .notFound := by
  unfold getTopicReport
  unfold topicUrls at h
  rw [h]
  rfl

theorem getTopicReport_eq_ok (urls : List UrlRecord) (tuples : List EventTuple)
    (topic : String) (hne : topicUrls urls topic ≠ []) :
    getTopicReport urls tuples topic = .ok (topicReportFor urls tuples topic) := by
  have hemp : (urls.filter (fun u => u.topic == some topic)).isEmpty = false := by
    rw [List.isEmpty_eq_false]
    exact hne
  simp only [getTopicReport, hemp, Bool.false_eq_true, if_false]
  have hrows : ∀ t ∈ topicRows urls tuples topic,
      t.alias_ ∈ (topicUrls urls topic).map (fun u => u.short_url) := by
    intro t ht
    unfold topicRows at ht
    have := (List.mem_filter.1 ht).2
    exact of_decide_eq_true this
  have hnames := bucketsBy_alias_names hrows
  have hmap := mapM_entries_ok (topicUrls urls topic)
    (bucketsBy (fun t => t.alias_) (topicRows urls tuples topic)) hnames
  unfold topicRows topicUrls bucketsBy at hmap
  simp only [] at hmap
  rw [hmap]
  unfold topicReportFor
  rw [foldl_add_eq_sum, foldl_addIp_map, Nat.zero_add]
  rfl

theorem getTopicReport_notFound_iff (urls : List UrlRecord) (tuples : List EventTuple)
    (topic : String) :
    getTopicReport urls tuples topic = .error .notFound ↔ topicUrls urls topic = [] := by
  constructor
  · intro h
    by_contra hne
    rw [getTopicReport_eq_ok urls tuples topic hne] at h
    cases h
  · exact getTopicReport_notFound_of urls tuples topic

/-! ### Helper lemmas for the create route and for classification -/

theorem truthy_some_iff (c : String) : truthy (some c) = true ↔ c ≠ "" := by
  simp [truthy]

theorem truthy_iff (o : Option String) :
    truthy o = true ↔ ∃ s, o = some s ∧ s ≠ "" := by
  cases o with
  | none => simp [truthy]
  | some s => simp [truthy]

theorem option_some_beq_some (x y : String) :
    ((some x : Option String) == some y) = (x == y) := rfl

theorem find?_congr {α : Type} (p q : α → Bool) (l : List α)
    (h : ∀ x ∈ l, p x = q x) : l.find? p = l.find? q := by
  induction l with
  | nil => rfl
  | cons x xs ih =>
    rw [List.find?_cons, List.find?_cons, h x (List.mem_cons_self x xs)]
    split
    · rfl
    · exact ih (fun y hy => h y (List.mem_cons_of_mem x hy))

theorem keptRows_filter_date (cutoff : String) (rows : List EventTuple) (d : String)
    (hd : lexLe cutoff.toList d.toList = true) :
    (keptRows cutoff rows).filter (fun t => t.click_date == d) =
      rows.filter (fun t => t.click_date == d) := by
  unfold keptRows
  induction rows with
  | nil => rfl
  | cons r rest ih =>
    by_cases hrd : r.click_date = d
    · have hkeep : lexLe cutoff.toList r.click_date.toList = true := by
        rw [hrd]; exact hd
      simp only [List.filter_cons, hkeep, if_true, beq_iff_eq, hrd, ih, hd]
    · by_cases hlex : lexLe cutoff.toList r.click_date.toList = true
      · simp only [List.filter_cons, hlex, if_true, beq_iff_eq, hrd, ih, if_false]
      · have hlex' : lexLe cutoff.toList r.click_date.toList = false := by
          revert hlex
          cases lexLe cutoff.toList r.click_date.toList <;> simp
        simp only [List.filter_cons, hlex', Bool.false_eq_true, if_false, ih,
          beq_iff_eq, hrd]

theorem create_ok_elim {urls : List UrlRecord} {longUrl customAlias topic : Option String}
    {generated : String} {r : UrlRecord} {urls1 : List UrlRecord}
    (h : create urls longUrl customAlias topic generated = .ok (r, urls1)) :
    truthy longUrl = true ∧
    urls1 = urls ++ [r] ∧
    r = { long_url := longUrl.getD ""
          short_url := if truthy customAlias then customAlias.getD "" else generated
          custom_alias := if truthy customAlias then customAlias else none
          topic := if truthy topic then topic else none } ∧
    (∀ c, customAlias = some c → ∀ u ∈ urls, u.custom_alias ≠ some c) := by
  unfold create at h
  by_cases hlu : truthy longUrl = true
  · rw [if_neg (by simp [hlu])] at h
    cases customAlias with
    | none =>
      simp only at h
      cases h
      refine ⟨hlu, rfl, rfl, ?_⟩
      intro c hc
      cases hc
    | some c =>
      by_cases hc : (urls.filter (fun u => u.custom_alias == some c)).length > 0
      · rw [if_pos hc] at h
        cases h
      · rw [if_neg hc] at h
        cases h
        refine ⟨hlu, rfl, rfl, ?_⟩
        rintro c' hc' u hu hua
        cases hc'
        apply hc
        have hmem : u ∈ urls.filter (fun u => u.custom_alias == some c) :=
          List.mem_filter.2 ⟨hu, by simp [hua]⟩
        exact List.length_pos.2 (List.ne_nil_of_mem hmem)
  · rw [if_pos (by simp [hlu])] at h
    cases h

theorem create_conflict_of {urls : List UrlRecord} {longUrl topic : Option String}
    {generated c : String} {u : UrlRecord} (hlu : truthy longUrl = true)
    (hu : u ∈ urls) (hc : u.custom_alias = some c) :
    create urls longUrl (some c) topic generated = .error .aliasConflict := by
  unfold create
  rw [if_neg (by simp [hlu])]
  have hmem : u ∈ urls.filter (fun u => u.custom_alias == some c) :=
    List.mem_filter.2 ⟨hu, by simp [hc]⟩
  rw [if_pos (List.length_pos.2 (List.ne_nil_of_mem hmem))]

/-! ### Claim theorems -/

/-- C1: for every input set of event tuples, the alias report's top-level
`uniqueUsers` is the number of distinct values of the group-level
`ip_address` field taken one per tuple, and each `osType`/`deviceType`
bucket's `uniqueUsers` is the size of the set of those group-level IPs
accumulated into that bucket. -/
theorem aliasReport_uniqueUsers_groupLevel (urls : List UrlRecord)
    (tuples : List EventTuple) (a cutoff : String) (r : AggregateReport)
    (h : getAliasReport urls tuples a cutoff = .ok r) :
    r.uniqueUsers =
      ((tuples.filter (fun t => t.alias_ == a)).map (fun t => t.ip_address)).toFinset.card ∧
    (∀ e ∈ r.osType, e.uniqueUsers =
      (((tuples.filter (fun t => t.alias_ == a)).filter
        (fun t => t.user_agent.map classifyOS == some e.osName)).map
          (fun t => t.ip_address)).toFinset.card) ∧
    (∀ e ∈ r.deviceType, e.uniqueUsers =
      (((tuples.filter (fun t => t.alias_ == a)).filter
        (fun t => t.user_agent.map classifyDevice == some e.deviceName)).map
          (fun t => t.ip_address)).toFinset.card) := by
  obtain ⟨-, hag, rfl⟩ := getAliasReport_ok_elim h
  refine ⟨?_, ?_, ?_⟩
  · show (ipSet (ipsOf (tuples.filter (fun t => t.alias_ == a)))).length = _
    rw [ipSet_length]
    rfl
  · intro e he
    obtain ⟨b, hb, rfl⟩ := List.mem_map.1 he
    have hval := (bucketsBy_inv osKey (tuples.filter (fun t => t.alias_ == a))).2.1
    have hv := (hval b hb).2
    have hfe : (tuples.filter (fun t => t.alias_ == a)).filter
        (fun t => t.user_agent.map classifyOS == some b.name) =
        (tuples.filter (fun t => t.alias_ == a)).filter (fun t => osKey t == b.name) := by
      apply List.filter_congr
      intro t ht
      obtain ⟨ua, hua⟩ := Option.ne_none_iff_exists'.1 (hag t ht)
      rw [hua]
      show (classifyOS ua == b.name) = (osKey t == b.name)
      unfold osKey
      rw [hua]
      rfl
    show b.uniqueUsers.length =
      (((tuples.filter (fun t => t.alias_ == a)).filter
        (fun t => t.user_agent.map classifyOS == some b.name)).map
          (fun t => t.ip_address)).toFinset.card
    rw [hfe, hv, ipSet_length]
    rfl
  · intro e he
    obtain ⟨b, hb, rfl⟩ := List.mem_map.1 he
    have hval := (bucketsBy_inv devKey (tuples.filter (fun t => t.alias_ == a))).2.1
    have hv := (hval b hb).2
    have hfe : (tuples.filter (fun t => t.alias_ == a)).filter
        (fun t => t.user_agent.map classifyDevice == some b.name) =
        (tuples.filter (fun t => t.alias_ == a)).filter (fun t => devKey t == b.name) := by
      apply List.filter_congr
      intro t ht
      obtain ⟨ua, hua⟩ := Option.ne_none_iff_exists'.1 (hag t ht)
      rw [hua]
      show (classifyDevice ua == b.name) = (devKey t == b.name)
      unfold devKey
      rw [hua]
      rfl
    show b.uniqueUsers.length =
      (((tuples.filter (fun t => t.alias_ == a)).filter
        (fun t => t.user_agent.map classifyDevice == some b.name)).map
          (fun t => t.ip_address)).toFinset.card
    rw [hfe, hv, ipSet_length]
    rfl

/-- C1 witness: the theorem applied to the two-tuple fixture. -/
theorem aliasReport_uniqueUsers_groupLevel_witness :
    (getAliasReport [demoUrl] [demoWin, demoIos] "abc" "2023-12-31" = .ok demoReport) ∧
    demoReport.uniqueUsers =
      (([demoWin, demoIos].filter (fun t => t.alias_ == "abc")).map
        (fun t => t.ip_address)).toFinset.card :=
  ⟨by decide,
   (aliasReport_uniqueUsers_groupLevel [demoUrl] [demoWin, demoIos] "abc" "2023-12-31"
     demoReport (by decide)).1⟩

/-- C2: `getAliasReport` returns NotFound exactly when the alias matches no
record's `short_url` or `custom_alias`; an alias that resolves but has zero
event tuples yields the all-zero/empty report, not NotFound. -/
theorem aliasReport_notFound_and_zero_events (urls : List UrlRecord)
    (tuples : List EventTuple) (a cutoff : String) :
    (getAliasReport urls tuples a cutoff = .error .notFound ↔
      ¬ ∃ u ∈ urls, u.short_url = a ∨ u.custom_alias = some a) ∧
    ((∃ u ∈ urls, u.short_url = a ∨ u.custom_alias = some a) →
      tuples.filter (fun t => t.alias_ == a) = [] →
      getAliasReport urls tuples a cutoff =
        .ok { totalClicks := 0, uniqueUsers := 0, clicksByDate := [],
              osType := [], deviceType := [] }) := by
  constructor
  · rw [getAliasReport_notFound_iff, List.filter_eq_nil_iff]
    simp [urlMatches]
  · intro hex hnil
    have hne : urls.filter (urlMatches a) ≠ [] := by
      rw [Ne, List.filter_eq_nil_iff]
      intro hall
      obtain ⟨u, hu, hor⟩ := hex
      exact hall u hu (by rcases hor with h | h <;> simp [urlMatches, h])
    have hok := getAliasReport_eq_ok_of urls tuples a cutoff hne
      (by rw [hnil]; intro t ht; cases ht)
    rw [hok, hnil]
    rfl

/-- C2 witness: an alias with a registered URL but no matching tuples gets
the zero report. -/
theorem aliasReport_notFound_and_zero_events_witness :
    getAliasReport [demoUrl] [{ demoWin with alias_ := "zzz" }] "abc" "2023-12-31" =
      .ok { totalClicks := 0, uniqueUsers := 0, clicksByDate := [],
            osType := [], deviceType := [] } :=
  (aliasReport_notFound_and_zero_events [demoUrl] [{ demoWin with alias_ := "zzz" }]
      "abc" "2023-12-31").2
    ⟨demoUrl, List.mem_singleton.2 rfl, Or.inl rfl⟩ (by decide)

/-- C3: the OS classification lower-cases the agent and tests the
substrings windows, mac, linux, android, ios-or-iphone in that fixed
order, first match winning with default `Other`, so every agent lands in
exactly one of the six OS buckets; the device classification is `mobile`
iff the lower-cased agent contains `mobile`, `android` or `iphone`, else
`desktop`. -/
theorem classify_os_device_spec (ua : String) :
    (classifyOS ua = "Windows" ∨ classifyOS ua = "macOS" ∨ classifyOS ua = "Linux" ∨
      classifyOS ua = "Android" ∨ classifyOS ua = "iOS" ∨ classifyOS ua = "Other") ∧
    (includes (lowerChars ua) "windows" = true → classifyOS ua = "Windows") ∧
    (includes (lowerChars ua) "windows" = false →
      includes (lowerChars ua) "mac" = true → classifyOS ua = "macOS") ∧
    (includes (lowerChars ua) "windows" = false →
      includes (lowerChars ua) "mac" = false →
      includes (lowerChars ua) "linux" = true → classifyOS ua = "Linux") ∧
    (includes (lowerChars ua) "windows" = false →
      includes (lowerChars ua) "mac" = false →
      includes (lowerChars ua) "linux" = false →
      includes (lowerChars ua) "android" = true → classifyOS ua = "Android") ∧
    (includes (lowerChars ua) "windows" = false →
      includes (lowerChars ua) "mac" = false →
      includes (lowerChars ua) "linux" = false →
      includes (lowerChars ua) "android" = false →
      (includes (lowerChars ua) "ios" = true ∨ includes (lowerChars ua) "iphone" = true) →
      classifyOS ua = "iOS") ∧
    (includes (lowerChars ua) "windows" = false →
      includes (lowerChars ua) "mac" = false →
      includes (lowerChars ua) "linux" = false →
      includes (lowerChars ua) "android" = false →
      includes (lowerChars ua) "ios" = false →
      includes (lowerChars ua) "iphone" = false → classifyOS ua = "Other") ∧
    ((classifyDevice ua = "mobile") ↔
      (includes (lowerChars ua) "mobile" = true ∨
       includes (lowerChars ua) "android" = true ∨
       includes (lowerChars ua) "iphone" = true)) ∧
    (classifyDevice ua = "mobile" ∨ classifyDevice ua = "desktop") := by
  refine ⟨?_, ?_, ?_, ?_, ?_, ?_, ?_, ?_, ?_⟩
  · simp only [classifyOS]
    split_ifs <;> simp
  · intro h1
    simp [classifyOS, h1]
  · intro h1 h2
    simp [classifyOS, h1, h2]
  · intro h1 h2 h3
    simp [classifyOS, h1, h2, h3]
  · intro h1 h2 h3 h4
    simp [classifyOS, h1, h2, h3, h4]
  · intro h1 h2 h3 h4 h5
    rcases h5 with h5 | h5 <;> simp [classifyOS, h1, h2, h3, h4, h5]
  · intro h1 h2 h3 h4 h5 h6
    simp [classifyOS, h1, h2, h3, h4, h5, h6]
  · simp only [classifyDevice]
    split_ifs with hd
    · simp only [true_iff]
      simpa [Bool.or_eq_true, or_assoc] using hd
    · constructor
      · intro hcon
        exact absurd hcon (by decide)
      · intro hcon
        exfalso
        apply hd
        simpa [Bool.or_eq_true, or_assoc] using hcon
  · simp only [classifyDevice]
    split_ifs <;> simp

/-- C3 witness: instantiated on concrete agents. -/
theorem classify_os_device_spec_witness :
    classifyOS "Mozilla Windows" = "Windows" ∧ classifyDevice "Android phone" = "mobile" :=
  ⟨(classify_os_device_spec "Mozilla Windows").2.1 (by decide),
   ((classify_os_device_spec "Android phone").2.2.2.2.2.2.2.1).2 (Or.inr (Or.inl (by decide)))⟩

/-- C4: every entry of `clicksByDate` has a date `>=` the seven-day cutoff
in string-lexicographic ISO comparison (inclusive lower bound, no upper
bound), and its `clickCount` is the sum of `total_clicks` over the alias's
tuples sharing that date. -/
theorem clicksByDate_cutoff_and_sums (urls : List UrlRecord)
    (tuples : List EventTuple) (a cutoff : String) (r : AggregateReport)
    (h : getAliasReport urls tuples a cutoff = .ok r) :
    ∀ dc ∈ r.clicksByDate,
      lexLe cutoff.toList dc.date.toList = true ∧
      dc.clickCount = (((tuples.filter (fun t => t.alias_ == a)).filter
        (fun t => t.click_date == dc.date)).map (fun t => t.total_clicks)).sum := by
  obtain ⟨-, -, rfl⟩ := getAliasReport_ok_elim h
  intro dc hdc
  obtain ⟨q, hq, rfl⟩ := List.mem_map.1 hdc
  obtain ⟨hnd, hval, hmem⟩ := dateMapOf_inv (keptRows cutoff (tuples.filter (fun t => t.alias_ == a)))
  obtain ⟨t, ht, htd⟩ := (hmem q.1).1 ⟨q, hq, rfl⟩
  have hlex : lexLe cutoff.toList q.1.toList = true := by
    have hk := (List.mem_filter.1 ht).2
    rw [htd] at hk
    exact hk
  refine ⟨hlex, ?_⟩
  have hv := hval q hq
  rw [keptRows_filter_date cutoff (tuples.filter (fun t => t.alias_ == a)) q.1 hlex] at hv
  exact hv

/-- C4 witness: the theorem applied to the fixture report. -/
theorem clicksByDate_cutoff_and_sums_witness :
    lexLe "2023-12-31".toList "2024-01-01".toList = true ∧
    (5 : Nat) = ((([demoWin, demoIos].filter (fun t => t.alias_ == "abc")).filter
      (fun t => t.click_date == "2024-01-01")).map (fun t => t.total_clicks)).sum := by
  have hall := clicksByDate_cutoff_and_sums [demoUrl] [demoWin, demoIos] "abc" "2023-12-31"
    demoReport (by decide) ⟨"2024-01-01", 5⟩ (by decide)
  exact hall

/-- C5: the per-bucket `uniqueClicks` summed over all `osType` buckets
equals `totalClicks`, and `totalClicks` is the sum of `total_clicks` over
all of the alias's input tuples. -/
theorem osType_partition_totalClicks (urls : List UrlRecord)
    (tuples : List EventTuple) (a cutoff : String) (r : AggregateReport)
    (h : getAliasReport urls tuples a cutoff = .ok r) :
    (r.osType.map (fun e => e.uniqueClicks)).sum = r.totalClicks ∧
    r.totalClicks =
      ((tuples.filter (fun t => t.alias_ == a)).map (fun t => t.total_clicks)).sum := by
  obtain ⟨-, -, rfl⟩ := getAliasReport_ok_elim h
  constructor
  · show (((bucketsBy osKey (tuples.filter (fun t => t.alias_ == a))).map
      (fun b => ({ osName := b.name, uniqueClicks := b.uniqueClicks,
                   uniqueUsers := b.uniqueUsers.length } : OsStat))).map
        (fun e => e.uniqueClicks)).sum = _
    rw [List.map_map]
    exact bucketsBy_sum osKey (tuples.filter (fun t => t.alias_ == a))
  · rfl

/-- C5 witness: the theorem applied to the fixture report. -/
theorem osType_partition_totalClicks_witness :
    ((demoReport.osType.map (fun e => e.uniqueClicks)).sum = demoReport.totalClicks) ∧
    demoReport.totalClicks =
      (([demoWin, demoIos].filter (fun t => t.alias_ == "abc")).map
        (fun t => t.total_clicks)).sum :=
  osType_partition_totalClicks [demoUrl] [demoWin, demoIos] "abc" "2023-12-31"
    demoReport (by decide)

/-- C6: the topic report is NotFound exactly when no record has the topic;
otherwise its `urls` array holds exactly one entry per alias with at least
one event tuple (zero-event aliases are omitted), so a topic whose URLs
all have zero events yields `urls = []` and `totalClicks = 0`. -/
theorem topicReport_urls_spec (urls : List UrlRecord) (tuples : List EventTuple)
    (topic : String) :
    (getTopicReport urls tuples topic = .error .notFound ↔
      ¬ ∃ u ∈ urls, u.topic = some topic) ∧
    ((∃ u ∈ urls, u.topic = some topic) →
      ∃ r, getTopicReport urls tuples topic = .ok r ∧
        (r.urls.map (fun e => e.shortUrl)).Nodup ∧
        (∀ al, al ∈ r.urls.map (fun e => e.shortUrl) ↔
          ∃ t ∈ topicRows urls tuples topic, t.alias_ = al) ∧
        (topicRows urls tuples topic = [] → r.urls = [] ∧ r.totalClicks = 0)) := by
  constructor
  · rw [getTopicReport_notFound_iff]
    unfold topicUrls
    rw [List.filter_eq_nil_iff]
    simp
  · intro hex
    have hne : topicUrls urls topic ≠ [] := by
      unfold topicUrls
      rw [Ne, List.filter_eq_nil_iff]
      intro hall
      obtain ⟨u, hu, ht⟩ := hex
      exact hall u hu (by simp [ht])
    obtain ⟨hnd, hval, hmem⟩ := bucketsBy_inv (fun t => t.alias_) (topicRows urls tuples topic)
    refine ⟨topicReportFor urls tuples topic, getTopicReport_eq_ok urls tuples topic hne,
      ?_, ?_, ?_⟩
    · show (((bucketsBy (fun t => t.alias_) (topicRows urls tuples topic)).map
        (fun b => ({ shortUrl := b.name, totalClicks := b.uniqueClicks,
                     uniqueUsers := b.uniqueUsers.length } : UrlEntry))).map
          (fun e => e.shortUrl)).Nodup
      rw [List.map_map]
      exact hnd
    · intro al
      show al ∈ ((bucketsBy (fun t => t.alias_) (topicRows urls tuples topic)).map
        (fun b => ({ shortUrl := b.name, totalClicks := b.uniqueClicks,
                     uniqueUsers := b.uniqueUsers.length } : UrlEntry))).map
          (fun e => e.shortUrl) ↔ _
      rw [List.map_map]
      show al ∈ (bucketsBy (fun t => t.alias_) (topicRows urls tuples topic)).map
        (fun b => b.name) ↔ _
      rw [← mem_name_iff]
      exact hmem al
    · intro hrows
      constructor
      · show ((bucketsBy (fun t => t.alias_) (topicRows urls tuples topic)).map
          (fun b => ({ shortUrl := b.name, totalClicks := b.uniqueClicks,
                       uniqueUsers := b.uniqueUsers.length } : UrlEntry))) = []
        rw [hrows]
        rfl
      · show clicksOf (topicRows urls tuples topic) = 0
        rw [hrows]
        rfl

/-- C6 witness: a topic with one URL and two tuples for it, and a topic
whose only URL has zero event tuples. -/
theorem topicReport_urls_spec_witness :
    ∃ r, getTopicReport [demoUrl] [demoWin, demoIos] "news" = .ok r ∧
      (r.urls.map (fun e => e.shortUrl)).Nodup ∧
      (∀ al, al ∈ r.urls.map (fun e => e.shortUrl) ↔
        ∃ t ∈ topicRows [demoUrl] [demoWin, demoIos] "news", t.alias_ = al) ∧
      (topicRows [demoUrl] [demoWin, demoIos] "news" = [] → r.urls = [] ∧ r.totalClicks = 0) :=
  (topicReport_urls_spec [demoUrl] [demoWin, demoIos] "news").2
    ⟨demoUrl, List.mem_singleton.2 rfl, rfl⟩

/-- C7 counterexample: the claim fails for the supplied-but-empty custom
alias `""`.  The first call stores `custom_alias` as NULL (JS `"" || null`),
so a second call with the same supplied alias `""` succeeds instead of
returning AliasConflict; and when `longUrl` is missing, a colliding custom
alias yields ValidationError, not AliasConflict, so the unconditional
if-and-only-if also fails. -/
theorem create_aliasConflict_cex :
    create [] (some "http://x.com") (some "") none "g1" =
      .ok (⟨"http://x.com", "g1", none, none⟩, [⟨"http://x.com", "g1", none, none⟩]) ∧
    create [⟨"http://x.com", "g1", none, none⟩] (some "http://y.com") (some "") none "g2" ≠
      .error .aliasConflict ∧
    create [⟨"http://z.com", "tok", some "abc", none⟩] none (some "abc") none "g3" =
      .error .validationError := by
  refine ⟨by decide, by decide, by decide⟩

/-- C7 (amended): given a non-empty `longUrl`, `create` fails with
AliasConflict iff `customAlias` is supplied and equals the `custom_alias`
of an existing record (never checked against `short_url` tokens); and
creating twice with the same *non-empty* `customAlias` makes the second
call return AliasConflict. -/
theorem create_aliasConflict_spec (urls : List UrlRecord)
    (longUrl customAlias topic : Option String) (generated : String) :
    (truthy longUrl = true →
      (create urls longUrl customAlias topic generated = .error .aliasConflict ↔
        ∃ c, customAlias = some c ∧ ∃ u ∈ urls, u.custom_alias = some c)) ∧
    (∀ c r urls1 lu2 tp2 g2, c ≠ "" → truthy lu2 = true →
      create urls longUrl (some c) topic generated = .ok (r, urls1) →
      create urls1 lu2 (some c) tp2 g2 = .error .aliasConflict) := by
  constructor
  · intro hlu
    constructor
    · intro h
      unfold create at h
      rw [if_neg (by simp [hlu])] at h
      cases customAlias with
      | none =>
        simp only at h
        cases h
      | some c =>
        by_cases hc : (urls.filter (fun u => u.custom_alias == some c)).length > 0
        · have hne : urls.filter (fun u => u.custom_alias == some c) ≠ [] := by
            intro hnil
            rw [hnil] at hc
            simp at hc
          obtain ⟨u, hu⟩ := List.exists_mem_of_ne_nil _ hne
          have := List.mem_filter.1 hu
          exact ⟨c, rfl, u, this.1, by simpa using this.2⟩
        · rw [if_neg hc] at h
          cases h
    · rintro ⟨c, rfl, u, hu, hua⟩
      exact create_conflict_of hlu hu hua
  · intro c r urls1 lu2 tp2 g2 hc hlu2 hok
    obtain ⟨-, hurls1, hr, -⟩ := create_ok_elim hok
    have htc : truthy (some c) = true := (truthy_some_iff c).2 hc
    have hmem : r ∈ urls1 := by
      rw [hurls1]
      exact List.mem_append_right urls (List.mem_singleton.2 rfl)
    have hra : r.custom_alias = some c := by
      rw [hr]
      simp [htc]
    exact create_conflict_of hlu2 hmem hra

/-- C7 witness: creating `abc` twice (non-empty) conflicts. -/
theorem create_aliasConflict_spec_witness :
    create [⟨"http://x.com", "abc", some "abc", none⟩]
      (some "http://y.com") (some "abc") none "g2" = .error .aliasConflict :=
  (create_aliasConflict_spec [] (some "http://x.com") (some "abc") none "g1").2
    "abc" ⟨"http://x.com", "abc", some "abc", none⟩
    [⟨"http://x.com", "abc", some "abc", none⟩]
    (some "http://y.com") none "g2" (by decide) (by decide) (by decide)

/-- C8: when the alias resolves, the redirect succeeds with the resolved
long URL whether or not the analytics insert fails; the storage error is
only logged, never propagated. -/
theorem redirect_insert_failure_swallowed (urls : List UrlRecord)
    (events : List AnalyticsEvent) (a : String) (userAgent ip : Option String)
    (geo : Option (String × String × String)) (u : UrlRecord)
    (h : urls.find? (urlMatches a) = some u) :
    ∀ insertFails : Bool, ∃ es,
      redirectShortUrl urls events a userAgent ip geo insertFails = .ok (u.long_url, es) := by
  intro f
  unfold redirectShortUrl
  rw [h]
  exact ⟨_, rfl⟩

/-- C8 witness: the fixture redirect succeeds with a failing and with a
working insert. -/
theorem redirect_insert_failure_swallowed_witness :
    (∃ es, redirectShortUrl [demoUrl] [] "abc" (some "UA") (some "9.9.9.9") none true =
      .ok (demoUrl.long_url, es)) ∧
    (∃ es, redirectShortUrl [demoUrl] [] "abc" (some "UA") (some "9.9.9.9") none false =
      .ok (demoUrl.long_url, es)) :=
  ⟨redirect_insert_failure_swallowed [demoUrl] [] "abc" (some "UA") (some "9.9.9.9")
      none demoUrl (by decide) true,
   redirect_insert_failure_swallowed [demoUrl] [] "abc" (some "UA") (some "9.9.9.9")
      none demoUrl (by decide) false⟩

/-- C9 counterexample: a successful create with the supplied (but empty)
custom alias `""` stores the generated token `gen1` as `short_url` and NULL
as `custom_alias`, so the created record's shortToken does not equal the
supplied customAlias. -/
theorem create_customAlias_token_cex :
    create [] (some "http://x.com") (some "") none "gen1" =
      .ok (⟨"http://x.com", "gen1", none, none⟩, [⟨"http://x.com", "gen1", none, none⟩]) ∧
    ("gen1" : String) ≠ "" := by
  refine ⟨by decide, by decide⟩

/-- C9 (amended): every successful create with a supplied *non-empty*
customAlias stores the same string in both `short_url` and `custom_alias`;
the invariant "non-null `custom_alias` implies `short_url = custom_alias`"
is preserved by create, and under it the resolver's two-field lookup
coincides with a `short_url`-only lookup. -/
theorem create_customAlias_token_spec (urls : List UrlRecord)
    (longUrl customAlias topic : Option String) (generated : String)
    (r : UrlRecord) (urls1 : List UrlRecord)
    (h : create urls longUrl customAlias topic generated = .ok (r, urls1)) :
    (∀ c, customAlias = some c → c ≠ "" →
      r.short_url = c ∧ r.custom_alias = some c) ∧
    ((∀ u ∈ urls, ∀ x, u.custom_alias = some x → u.short_url = x) →
      (∀ u ∈ urls1, ∀ x, u.custom_alias = some x → u.short_url = x)) ∧
    ((∀ u ∈ urls1, ∀ x, u.custom_alias = some x → u.short_url = x) →
      ∀ al, urls1.find? (urlMatches al) = urls1.find? (fun u => u.short_url == al)) := by
  obtain ⟨-, hurls1, hr, -⟩ := create_ok_elim h
  refine ⟨?_, ?_, ?_⟩
  · rintro c rfl hc
    have htc : truthy (some c) = true := (truthy_some_iff c).2 hc
    rw [hr]
    simp [htc]
  · intro hinv u hu x hx
    rw [hurls1] at hu
    rcases List.mem_append.1 hu with hu | hu
    · exact hinv u hu x hx
    · rw [List.mem_singleton.1 hu] at hx ⊢
      rw [hr] at hx ⊢
      by_cases htc : truthy customAlias = true
      · simp only [if_pos htc] at hx ⊢
        obtain ⟨s, hs, hsne⟩ := (truthy_iff customAlias).1 htc
        rw [hs] at hx ⊢
        cases hx
        rfl
      · simp only [if_neg htc] at hx
        cases hx
  · intro hinv al
    apply find?_congr
    intro u hu
    unfold urlMatches
    by_cases hca : u.custom_alias = some al
    · have := hinv u hu al hca
      simp [this, hca]
    · have : (u.custom_alias == some al) = false := beq_eq_false_iff_ne.2 hca
      rw [this, Bool.or_false]

/-- C9 witness: a non-empty custom alias is stored in both fields. -/
theorem create_customAlias_token_spec_witness :
    (⟨"http://x.com", "abc", some "abc", none⟩ : UrlRecord).short_url = "abc" ∧
    (⟨"http://x.com", "abc", some "abc", none⟩ : UrlRecord).custom_alias = some "abc" :=
  (create_customAlias_token_spec [] (some "http://x.com") (some "abc") none "g1"
      ⟨"http://x.com", "abc", some "abc", none⟩
      [⟨"http://x.com", "abc", some "abc", none⟩] (by decide)).1
    "abc" rfl (by decide)

/-- C10: for a resolving alias, the aggregation succeeds whenever every
tuple's user agent is a string, and fails with the TypeError crash (rather
than classifying into Other/desktop) when some tuple's agent is NULL; the
recorder can produce such NULL agents since the user-agent header may be
absent. -/
theorem aliasReport_totality_on_string_agents (urls : List UrlRecord)
    (tuples : List EventTuple) (a cutoff : String)
    (hne : urls.filter (urlMatches a) ≠ []) :
    ((∀ t ∈ tuples.filter (fun t => t.alias_ == a), t.user_agent ≠ none) →
      ∃ r, getAliasReport urls tuples a cutoff = .ok r) ∧
    ((∃ t ∈ tuples.filter (fun t => t.alias_ == a), t.user_agent = none) →
      getAliasReport urls tuples a cutoff = .error .typeError) ∧
    (∀ events ip geo u, urls.find? (urlMatches a) = some u →
      ∃ es, redirectShortUrl urls events a none ip geo false = .ok (u.long_url, es) ∧
        ∃ ev ∈ es, ev.user_agent = none) := by
  refine ⟨?_, ?_, ?_⟩
  · intro hag
    exact ⟨_, getAliasReport_eq_ok_of urls tuples a cutoff hne hag⟩
  · intro hnone
    exact getAliasReport_typeError_of urls tuples a cutoff hne hnone
  · intro events ip geo u hu
    unfold redirectShortUrl
    rw [hu]
    refine ⟨_, rfl, ?_⟩
    refine ⟨_, List.mem_append_right events (List.mem_singleton.2 rfl), rfl⟩

/-- C10 witness: a NULL-agent tuple crashes the fixture report with
TypeError; with string agents the same alias succeeds. -/
theorem aliasReport_totality_on_string_agents_witness :
    getAliasReport [demoUrl] [demoWin, demoNull] "abc" "2023-12-31" =
      .error .typeError :=
  (aliasReport_totality_on_string_agents [demoUrl] [demoWin, demoNull] "abc" "2023-12-31"
      (by decide)).2.1
    ⟨demoNull, by decide, rfl⟩

end UrlShortner
